import Mathlib

/-!
Verification of the Morse-code decoding core of the Morse_Code_Robot
repository (file Dual_sensor_follower_GearsBot_30030295.py, which contains
two near-identical variants of the class MorseCodeDecoderRobot).

The shallow embedding below translates the decoding-relevant parts of the
source into Lean:

* colors are the raw ev3dev integer color codes used by the source
  (1 black, 3 green, 4 yellow, 5 red, 6 white, 7 brown);
* durations and timestamps are exact rationals (the source uses Python
  floats obtained from time.time() differences);
* the inline per-interval classification logic of decode_path is the pair
  of functions classifyV1 / classifyV2 (variant 1 = first script, lines
  91-122; variant 2 = second script, lines 299-338), returning
  Except PyError DecodeState because the source can raise TypeError
  (comparison against an unset first_signal_duration, i.e. None) and
  ZeroDivisionError (division by a zero first_signal_duration);
* the color-transition segmentation of decode_path (identical in both
  variants) is segStep / segRun;
* translate_to_text (identical logic in both variants apart from the word
  separator: three gap characters in variant 1, the bar character in
  variant 2) is translateV1 / translateV2 over lists of characters, with
  pySplit modelling Python str.split(sep) and stripList modelling
  str.strip().
-/

namespace MorseRobot

/-- Python one-argument round: round half to even (banker's rounding),
used by variant 1 for the number of gap symbols, modelled on rationals. -/
def pyRound (q : ℚ) : ℤ :=
  if q - ⌊q⌋ = 1 / 2 then (if Even ⌊q⌋ then ⌊q⌋ else ⌊q⌋ + 1) else round q

/-- Runtime errors the decoding code can raise. -/
inductive PyError where
  | typeError
  | zeroDivisionError
deriving DecidableEq

/-- The decoding state mutated by decode_path: the calibration reference
first_signal_duration (None until set) and the accumulated
decoded_message string. -/
structure DecodeState where
  first_signal_duration : Option ℚ
  decoded_message : List Char
deriving DecidableEq

/-- Variant 1 per-interval classification (lines 94-114 of the source):
given the color of the run that just closed and its measured duration,
update the decoding state.  White (6): first interval calibrates, later
ones append round(duration / first) gap characters (Python string
repetition clamps negative counts to zero; division by a zero reference
raises ZeroDivisionError).  Red (5): dot if duration < 1 * first else
dash; with first still None the comparison 1 * None raises TypeError.
All other colors leave the state untouched. -/
def classifyV1 (st : DecodeState) (color : ℕ) (d : ℚ) :
    Except PyError DecodeState :=
  if color = 6 then
    match st.first_signal_duration with
    | none => .ok ⟨some d, st.decoded_message⟩
    | some f =>
      if f = 0 then .error .zeroDivisionError
      else
        .ok ⟨some f,
          st.decoded_message ++ List.replicate (pyRound (d / f)).toNat ' '⟩
  else if color = 5 then
    match st.first_signal_duration with
    | none => .error .typeError
    | some f =>
      if d < 1 * f then .ok ⟨some f, st.decoded_message ++ ['.']⟩
      else .ok ⟨some f, st.decoded_message ++ ['-']⟩
  else .ok st

/-- Variant 2 per-interval classification (lines 302-331 of the source).
Inside the guard last_detected_color in [5, 6]: white with an unset
reference calibrates; red appends dot if duration < 0.2 * first, dash if
duration > 0.2 * first (nothing at exactly 0.2 * first), raising
TypeError when first is None; white appends a gap character if
0.2 * first < duration < 0.5 * first; finally, for either color, a word
gap bar is appended whenever duration > 0.5 * first. -/
def classifyV2 (st : DecodeState) (color : ℕ) (d : ℚ) :
    Except PyError DecodeState :=
  if color = 5 ∨ color = 6 then
    let st1 : DecodeState :=
      if color = 6 then
        match st.first_signal_duration with
        | none => ⟨some d, st.decoded_message⟩
        | some _ => st
      else st
    match st1.first_signal_duration with
    | none => .error .typeError
    | some f =>
      let m2 : List Char :=
        if color = 5 then
          (if d < 0.2 * f then st1.decoded_message ++ ['.']
           else if d > 0.2 * f then st1.decoded_message ++ ['-']
           else st1.decoded_message)
        else st1.decoded_message
      let m3 : List Char :=
        if color = 6 ∧ d > 0.2 * f ∧ d < 0.5 * f then m2 ++ [' '] else m2
      let m4 : List Char := if d > 0.5 * f then m3 ++ ['|'] else m3
      .ok ⟨some f, m4⟩
  else .ok st

/-- The termination test of the decoding loop (identical in both
variants): decoded_message.endswith(gap * 7). -/
def endsWithGaps7 (msg : List Char) : Bool :=
  (List.replicate 7 ' ').isSuffixOf msg

/-- Length of the trailing run of gap characters of the message. -/
def trailingGaps (msg : List Char) : ℕ :=
  (msg.reverse.takeWhile (fun c => c == ' ')).length

/-- Outcome reported to the driving loop after a classification step. -/
inductive Outcome where
  | terminate
  | keepGoing
deriving DecidableEq

/-- Outcome of the loop-bottom check on the accumulated message. -/
def outcomeOf (msg : List Char) : Outcome :=
  if endsWithGaps7 msg then .terminate else .keepGoing

/-- The decoding loop over a list of closed intervals (color, duration):
classify each interval in turn, stopping as soon as the loop-bottom
termination check fires, exactly as the while-loop of decode_path does
(the external obstacle stop signal is not modelled). -/
def runLoop (cls : DecodeState → ℕ → ℚ → Except PyError DecodeState) :
    DecodeState → List (ℕ × ℚ) → Except PyError DecodeState
  | st, [] => .ok st
  | st, iv :: rest =>
    match cls st iv.1 iv.2 with
    | .error e => .error e
    | .ok st' =>
      if endsWithGaps7 st'.decoded_message then .ok st'
      else runLoop cls st' rest

instance : DecidableEq (Except PyError DecodeState) := fun a b =>
  match a, b with
  | .error x, .error y =>
    if h : x = y then isTrue (congrArg Except.error h)
    else isFalse (fun hc => h (Except.error.inj hc))
  | .error _, .ok _ => isFalse (fun hc => Except.noConfusion hc)
  | .ok _, .error _ => isFalse (fun hc => Except.noConfusion hc)
  | .ok x, .ok y =>
    if h : x = y then isTrue (congrArg Except.ok h)
    else isFalse (fun hc => h (Except.ok.inj hc))

/-- Color aliasing performed on every sample before any other processing
(lines 84-85 / 292-293): yellow (4) and brown (7) are read as red (5). -/
def aliasColor (c : ℕ) : ℕ := if c = 4 ∨ c = 7 then 5 else c

/-- Segmentation state of decode_path: the last stored color (None before
the first sample) and signal_start_time. -/
structure SegState where
  last : Option ℕ
  start : ℚ
deriving DecidableEq

/-- One iteration of the color-transition segmentation of decode_path
(identical in both variants).  A sample is an (aliased-color, timestamp)
pair.  When the color differs from the stored one and the stored color is
red or white, the closed run is emitted as an interval
(stored color, timestamp - signal_start_time) and the timer is reset;
for any other stored color the timer is NOT reset (the source only
resets signal_start_time inside the last_detected_color in [5, 6]
branch).  When the color is unchanged nothing happens. -/
def segStep (st : SegState) (s : ℕ × ℚ) : SegState × Option (ℕ × ℚ) :=
  let c := aliasColor s.1
  match st.last with
  | none => (⟨some c, st.start⟩, none)
  | some lc =>
    if c = lc then (st, none)
    else if lc = 5 ∨ lc = 6 then (⟨some c, s.2⟩, some (lc, s.2 - st.start))
    else (⟨some c, st.start⟩, none)

/-- Run the segmenter over a sample stream, collecting emitted intervals. -/
def segRun (st : SegState) : List (ℕ × ℚ) → SegState × List (ℕ × ℚ)
  | [] => (st, [])
  | s :: ss =>
    let p := segStep st s
    let q := segRun p.1 ss
    (q.1, p.2.toList ++ q.2)

/-- One representative per maximal run of identical consecutive elements,
starting a run at c. -/
def runRepsGo (c : ℕ) : List ℕ → List ℕ
  | [] => [c]
  | d :: ds => if d = c then runRepsGo c ds else c :: runRepsGo d ds

/-- One representative per maximal run of identical consecutive elements. -/
def runReps : List ℕ → List ℕ
  | [] => []
  | c :: cs => runRepsGo c cs

/-- Python str.split(sep) on character lists, fuelled worker: scan left to
right, split at each leftmost non-overlapping occurrence of sep.  The cur
accumulator holds the current chunk reversed; one unit of fuel is spent
per consumed character, so fuel = length of the input suffices. -/
def pySplitGo (sep : List Char) : ℕ → List Char → List Char → List (List Char)
  | _, [], cur => [cur.reverse]
  | 0, s, cur => [cur.reverse ++ s]
  | n + 1, c :: rest, cur =>
    if sep ≠ [] ∧ sep.isPrefixOf (c :: rest) then
      cur.reverse :: pySplitGo sep n ((c :: rest).drop sep.length) []
    else pySplitGo sep n rest (c :: cur)

/-- Python str.split(sep) on character lists. -/
def pySplit (sep : List Char) (s : List Char) : List (List Char) :=
  pySplitGo sep s.length s []

/-- Python str.strip() on character lists: drop whitespace from both
ends. -/
def stripList (s : List Char) : List Char :=
  ((s.reverse.dropWhile Char.isWhitespace).reverse).dropWhile Char.isWhitespace

/-- The morse_to_alpha_numeric table, identical in both variants. -/
def morseTable : List (List Char × Char) :=
  [(['.', '-'], 'A'), (['-', '.', '.', '.'], 'B'), (['-', '.', '-', '.'], 'C'),
   (['-', '.', '.'], 'D'), (['.'], 'E'), (['.', '.', '-', '.'], 'F'),
   (['-', '-', '.'], 'G'), (['.', '.', '.', '.'], 'H'), (['.', '.'], 'I'),
   (['.', '-', '-', '-'], 'J'), (['-', '.', '-'], 'K'), (['.', '-', '.', '.'], 'L'),
   (['-', '-'], 'M'), (['-', '.'], 'N'), (['-', '-', '-'], 'O'),
   (['.', '-', '-', '.'], 'P'), (['-', '-', '.', '-'], 'Q'), (['.', '-', '.'], 'R'),
   (['.', '.', '.'], 'S'), (['-'], 'T'), (['.', '.', '-'], 'U'),
   (['.', '.', '.', '-'], 'V'), (['.', '-', '-'], 'W'), (['-', '.', '.', '-'], 'X'),
   (['-', '.', '-', '-'], 'Y'), (['-', '-', '.', '.'], 'Z'),
   (['-', '-', '-', '-', '-'], '0'), (['.', '-', '-', '-', '-'], '1'),
   (['.', '.', '-', '-', '-'], '2'), (['.', '.', '.', '-', '-'], '3'),
   (['.', '.', '.', '.', '-'], '4'), (['.', '.', '.', '.', '.'], '5'),
   (['-', '.', '.', '.', '.'], '6'), (['-', '-', '.', '.', '.'], '7'),
   (['-', '-', '-', '.', '.'], '8'), (['-', '-', '-', '-', '.'], '9')]

/-- morse_to_alpha_numeric.get(code, ''): the looked-up character as a
one-character string, or the empty string for unknown codes. -/
def lookupCode (code : List Char) : List Char :=
  match List.lookup code morseTable with
  | some ch => [ch]
  | none => []

/-- The inner loop of translate_to_text: decoded_word built by repeated
string concatenation over the letter codes of one word. -/
def decodeWord (w : List Char) : List Char :=
  (pySplit [' '] w).foldl (fun acc code => acc ++ lookupCode code) []

/-- Variant 1 translate_to_text (lines 173-197): words are split at three
consecutive gap characters, letters at single gaps; each decoded word is
appended followed by a space and the result is stripped. -/
def translateV1 (m : List Char) : List Char :=
  stripList
    ((pySplit [' ', ' ', ' '] m).foldl (fun acc w => acc ++ decodeWord w ++ [' ']) [])

/-- Variant 2 translate_to_text (lines 398-420): identical except that
words are split at the word-gap bar character. -/
def translateV2 (m : List Char) : List Char :=
  stripList
    ((pySplit ['|'] m).foldl (fun acc w => acc ++ decodeWord w ++ [' ']) [])

/-- The translation pipeline exactly as the specification describes it:
split the stream into words at the word-separator, split each word into
letter codes at gap boundaries, map each code through the table with
unknown codes yielding the empty string, concatenate the letters of each
word, join the words with a single space, and trim surrounding
whitespace. -/
def joinWords : List (List Char) → List Char
  | [] => []
  | [w] => w
  | w :: ws => w ++ [' '] ++ joinWords ws

/-- The specification's description of the translator, parametric in the
word-separator encoding. -/
def specTranslate (wordSep : List Char) (m : List Char) : List Char :=
  stripList
    (joinWords ((pySplit wordSep m).map
      (fun w => ((pySplit [' '] w).map lookupCode).flatten)))

/-! ### Branch characterizations of the two classifiers -/

lemma pyRound_intCast (n : ℤ) : pyRound (n : ℚ) = n := by
  unfold pyRound
  rw [Int.floor_intCast, sub_self]
  have h : (0 : ℚ) ≠ 1 / 2 := by norm_num
  rw [if_neg h, round_intCast]

lemma classifyV1_white_none {st : DecodeState} (d : ℚ)
    (h : st.first_signal_duration = none) :
    classifyV1 st 6 d = .ok ⟨some d, st.decoded_message⟩ := by
  simp [classifyV1, h]

lemma classifyV1_white_some {st : DecodeState} {f : ℚ} (d : ℚ)
    (h : st.first_signal_duration = some f) (h0 : f ≠ 0) :
    classifyV1 st 6 d =
      .ok ⟨some f, st.decoded_message ++ List.replicate (pyRound (d / f)).toNat ' '⟩ := by
  simp [classifyV1, h, h0]

lemma classifyV1_white_zero {st : DecodeState} (d : ℚ)
    (h : st.first_signal_duration = some 0) :
    classifyV1 st 6 d = .error .zeroDivisionError := by
  simp [classifyV1, h]

lemma classifyV1_red_none {st : DecodeState} (d : ℚ)
    (h : st.first_signal_duration = none) :
    classifyV1 st 5 d = .error .typeError := by
  simp [classifyV1, h]

lemma classifyV1_red_some {st : DecodeState} {f : ℚ} (d : ℚ)
    (h : st.first_signal_duration = some f) :
    classifyV1 st 5 d =
      .ok ⟨some f, st.decoded_message ++ [if d < f then '.' else '-']⟩ := by
  by_cases hd : d < 1 * f
  · rw [one_mul] at hd
    simp [classifyV1, h, hd]
  · rw [one_mul] at hd
    simp [classifyV1, h, hd]

lemma classifyV1_other {st : DecodeState} {c : ℕ} (d : ℚ)
    (h5 : c ≠ 5) (h6 : c ≠ 6) : classifyV1 st c d = .ok st := by
  simp [classifyV1, h5, h6]

lemma classifyV2_red_none {st : DecodeState} (d : ℚ)
    (h : st.first_signal_duration = none) :
    classifyV2 st 5 d = .error .typeError := by
  simp [classifyV2, h]

lemma classifyV2_red_some {st : DecodeState} {f : ℚ} (d : ℚ)
    (h : st.first_signal_duration = some f) :
    classifyV2 st 5 d =
      .ok ⟨some f, st.decoded_message ++
        ((if d < 0.2 * f then ['.'] else if 0.2 * f < d then ['-'] else []) ++
          (if 0.5 * f < d then ['|'] else []))⟩ := by
  by_cases h1 : d < 0.2 * f <;> by_cases h2 : 0.2 * f < d <;>
    by_cases h3 : 0.5 * f < d <;>
    simp [classifyV2, h, h1, h2, h3, gt_iff_lt, List.append_assoc]

lemma classifyV2_white_none {st : DecodeState} (d : ℚ)
    (h : st.first_signal_duration = none) :
    classifyV2 st 6 d =
      .ok ⟨some d, st.decoded_message ++ (if 0 < d then ['|'] else [])⟩ := by
  by_cases hd : 0 < d
  · have h1 : ¬ d < 0.5 * d := by linarith
    have h2 : 0.2 * d < d := by linarith
    have h3 : 0.5 * d < d := by linarith
    simp [classifyV2, h, h1, h2, h3, gt_iff_lt, hd]
  · have h2 : ¬ 0.2 * d < d := by linarith
    have h3 : ¬ 0.5 * d < d := by linarith
    simp [classifyV2, h, h2, h3, gt_iff_lt, hd]

lemma classifyV2_white_some {st : DecodeState} {f : ℚ} (d : ℚ)
    (h : st.first_signal_duration = some f) :
    classifyV2 st 6 d =
      .ok ⟨some f, st.decoded_message ++
        ((if 0.2 * f < d ∧ d < 0.5 * f then [' '] else []) ++
          (if 0.5 * f < d then ['|'] else []))⟩ := by
  by_cases h1 : 0.2 * f < d ∧ d < 0.5 * f <;> by_cases h3 : 0.5 * f < d <;>
    simp [classifyV2, h, h1, h3, gt_iff_lt, List.append_assoc]

lemma classifyV2_other {st : DecodeState} {c : ℕ} (d : ℚ)
    (h5 : c ≠ 5) (h6 : c ≠ 6) : classifyV2 st c d = .ok st := by
  simp [classifyV2, h5, h6]

lemma classifyV1_ok_first {st st' : DecodeState} {c : ℕ} {d : ℚ}
    (h : classifyV1 st c d = .ok st') :
    st'.first_signal_duration = st.first_signal_duration
    ∨ (c = 6 ∧ st.first_signal_duration = none
        ∧ st'.first_signal_duration = some d) := by
  by_cases h6 : c = 6
  · subst h6
    cases hst : st.first_signal_duration with
    | none =>
      rw [classifyV1_white_none d hst] at h
      exact Or.inr ⟨rfl, rfl, by simp [← Except.ok.inj h]⟩
    | some f =>
      by_cases h0 : f = 0
      · subst h0
        rw [classifyV1_white_zero d hst] at h
        simp at h
      · rw [classifyV1_white_some d hst h0] at h
        exact Or.inl (by simp [← Except.ok.inj h, hst])
  · by_cases h5 : c = 5
    · subst h5
      cases hst : st.first_signal_duration with
      | none =>
        rw [classifyV1_red_none d hst] at h
        simp at h
      | some f =>
        rw [classifyV1_red_some d hst] at h
        exact Or.inl (by simp [← Except.ok.inj h, hst])
    · rw [classifyV1_other d h5 h6] at h
      exact Or.inl (by simp [← Except.ok.inj h])

lemma classifyV2_ok_first {st st' : DecodeState} {c : ℕ} {d : ℚ}
    (h : classifyV2 st c d = .ok st') :
    st'.first_signal_duration = st.first_signal_duration
    ∨ (c = 6 ∧ st.first_signal_duration = none
        ∧ st'.first_signal_duration = some d) := by
  by_cases h6 : c = 6
  · subst h6
    cases hst : st.first_signal_duration with
    | none =>
      rw [classifyV2_white_none d hst] at h
      exact Or.inr ⟨rfl, rfl, by simp [← Except.ok.inj h]⟩
    | some f =>
      rw [classifyV2_white_some d hst] at h
      exact Or.inl (by simp [← Except.ok.inj h, hst])
  · by_cases h5 : c = 5
    · subst h5
      cases hst : st.first_signal_duration with
      | none =>
        rw [classifyV2_red_none d hst] at h
        simp at h
      | some f =>
        rw [classifyV2_red_some d hst] at h
        exact Or.inl (by simp [← Except.ok.inj h, hst])
    · rw [classifyV2_other d h5 h6] at h
      exact Or.inl (by simp [← Except.ok.inj h])

/-! ### Trailing gap runs and the termination test -/

lemma replicate_prefix_iff (n : ℕ) (xs : List Char) :
    List.replicate n ' ' <+: xs ↔ n ≤ (xs.takeWhile (fun c => c == ' ')).length := by
  induction n generalizing xs with
  | zero => simp
  | succ n ih =>
    cases xs with
    | nil => simp [List.replicate_succ]
    | cons x xs =>
      rw [List.replicate_succ, List.cons_prefix_cons, List.takeWhile_cons]
      by_cases hx : x = ' '
      · subst hx
        simp [ih]
      · have hb : ((fun c => c == ' ') x) = false := by simp [hx]
        simp [hb, Ne.symm hx]

lemma endsWithGaps7_iff (msg : List Char) :
    endsWithGaps7 msg = true ↔ 7 ≤ trailingGaps msg := by
  unfold endsWithGaps7 trailingGaps
  rw [List.isSuffixOf_iff_suffix, ← List.reverse_prefix, List.reverse_replicate]
  exact replicate_prefix_iff 7 msg.reverse

/-! ### Concrete values of pyRound used by the witnesses -/

lemma pyRound_one : pyRound 1 = 1 := by
  have h := pyRound_intCast 1
  norm_num at h
  exact h

lemma pyRound_three : pyRound 3 = 3 := by
  have h := pyRound_intCast 3
  norm_num at h
  exact h

lemma pyRound_seven_tenths : pyRound (7 / 10) = 1 := by
  unfold pyRound
  have hf : ⌊(7 : ℚ) / 10⌋ = 0 := by
    rw [Int.floor_eq_zero_iff]
    constructor <;> norm_num
  rw [hf]
  norm_num [round_eq]

lemma pyRound_nonpos {q : ℚ} (h : q ≤ 1 / 2) : pyRound q ≤ 0 := by
  unfold pyRound
  split_ifs with h1 h2
  · have hfl : (⌊q⌋ : ℚ) ≤ 0 := by linarith
    exact_mod_cast hfl
  · have hfl : (⌊q⌋ : ℚ) ≤ 0 := by linarith
    have hfl' : ⌊q⌋ ≤ 0 := by exact_mod_cast hfl
    have hne : ⌊q⌋ ≠ 0 := fun h0 => h2 (h0 ▸ even_zero)
    omega
  · have hq : q < 1 / 2 := by
      rcases eq_or_lt_of_le h with he | hlt
      · exfalso
        apply h1
        subst he
        have hfl : ⌊(1 : ℚ) / 2⌋ = 0 := by
          rw [Int.floor_eq_zero_iff]
          constructor <;> norm_num
        rw [hfl]
        norm_num
      · exact hlt
    rw [round_eq]
    have h2' : q + 1 / 2 < ((1 : ℤ) : ℚ) := by push_cast; linarith
    have h3 := Int.floor_lt.mpr h2'
    omega

/-! ### The claims -/

/-- C1, counterexample.  The claim states that every calibrated
SignalMark interval classifies as Dot when its duration is strictly below
the unit duration; in particular a 0.5 s mark with unit duration 1 s must
yield a Dot.  In variant 2 the dot/dash threshold is 0.2 times the unit
duration, so that mark yields a Dash instead. -/
theorem C1_counterexample :
    classifyV2 ⟨some 1, []⟩ 5 (1 / 2) = .ok ⟨some 1, ['-']⟩
    ∧ classifyV2 ⟨some 1, []⟩ 5 (1 / 2) ≠ .ok ⟨some 1, ['.']⟩ := by
  have h : classifyV2 ⟨some 1, []⟩ 5 (1 / 2) = .ok ⟨some 1, ['-']⟩ := by
    rw [classifyV2_red_some (1 / 2) rfl]
    norm_num
  refine ⟨h, ?_⟩
  rw [h]
  simp

/-- C1, amended.  For a calibrated session with a nonnegative unit
duration f: variant 1 classifies a SignalMark of duration d as Dot iff
d < f and as Dash otherwise (so with f = 1 a 0.5 s mark is a Dot and a
1.5 s mark is a Dash); variant 2 instead classifies it as Dot iff
d < 0.2 * f, as Dash iff d > 0.2 * f (appending nothing at exactly
0.2 * f), and additionally appends a word-gap bar whenever d > 0.5 * f. -/
theorem C1_amended (st : DecodeState) (f d : ℚ)
    (hf : st.first_signal_duration = some f) (h0 : 0 ≤ f) :
    (d < f → classifyV1 st 5 d = .ok ⟨some f, st.decoded_message ++ ['.']⟩)
    ∧ (f ≤ d → classifyV1 st 5 d = .ok ⟨some f, st.decoded_message ++ ['-']⟩)
    ∧ (d < 0.2 * f → classifyV2 st 5 d = .ok ⟨some f, st.decoded_message ++ ['.']⟩)
    ∧ (0.2 * f < d → d ≤ 0.5 * f →
        classifyV2 st 5 d = .ok ⟨some f, st.decoded_message ++ ['-']⟩)
    ∧ (0.5 * f < d →
        classifyV2 st 5 d = .ok ⟨some f, st.decoded_message ++ ['-', '|']⟩)
    ∧ (d = 0.2 * f → classifyV2 st 5 d = .ok ⟨some f, st.decoded_message⟩) := by
  refine ⟨?_, ?_, ?_, ?_, ?_, ?_⟩
  · intro h
    rw [classifyV1_red_some d hf]
    simp [h]
  · intro h
    rw [classifyV1_red_some d hf]
    simp [not_lt.mpr h]
  · intro h
    have h3 : ¬ 0.5 * f < d := by linarith
    rw [classifyV2_red_some d hf]
    simp [h, h3]
  · intro h1 h2
    have hn : ¬ d < 0.2 * f := by linarith
    have h3 : ¬ 0.5 * f < d := by linarith
    rw [classifyV2_red_some d hf]
    simp [hn, h1, h3]
  · intro h
    have hn : ¬ d < 0.2 * f := by linarith
    have h2 : 0.2 * f < d := by linarith
    rw [classifyV2_red_some d hf]
    simp [hn, h2, h]
  · intro h
    have h1 : ¬ d < 0.2 * f := by linarith
    have h2 : ¬ 0.2 * f < d := by linarith
    have h3 : ¬ 0.5 * f < d := by linarith
    rw [classifyV2_red_some d hf]
    simp [h1, h2, h3]

theorem C1_amended_witness :
    classifyV1 ⟨some 1, []⟩ 5 (1 / 2) = .ok ⟨some 1, ['.']⟩
    ∧ classifyV1 ⟨some 1, []⟩ 5 (3 / 2) = .ok ⟨some 1, ['-']⟩
    ∧ classifyV2 ⟨some 1, []⟩ 5 (3 / 2) = .ok ⟨some 1, ['-', '|']⟩ := by
  refine ⟨?_, ?_, ?_⟩
  · have h := (C1_amended ⟨some 1, []⟩ 1 (1 / 2) rfl (by norm_num)).1 (by norm_num)
    simpa using h
  · have h := (C1_amended ⟨some 1, []⟩ 1 (3 / 2) rfl (by norm_num)).2.1 (by norm_num)
    simpa using h
  · have h :=
      (C1_amended ⟨some 1, []⟩ 1 (3 / 2) rfl (by norm_num)).2.2.2.2.1 (by norm_num)
    simpa using h

/-- C2, counterexample.  The claim states a gap interval with ratio
below 1 appends no symbol and a ratio of at least 3 appends a single
WordGap.  In variant 1, with unit duration 1, a 0.7 s gap (ratio 0.7 < 1)
appends one SymbolGap, and a 3 s gap (ratio 3) appends three SymbolGaps,
not one WordGap (variant 1 has no word-gap symbol at all). -/
theorem C2_counterexample :
    classifyV1 ⟨some 1, []⟩ 6 (7 / 10) = .ok ⟨some 1, [' ']⟩
    ∧ classifyV1 ⟨some 1, []⟩ 6 3 = .ok ⟨some 1, [' ', ' ', ' ']⟩
    ∧ ([' '] : List Char) ≠ []
    ∧ ([' ', ' ', ' '] : List Char) ≠ [' '] := by
  refine ⟨?_, ?_, by simp, by simp⟩
  · rw [classifyV1_white_some (7 / 10) rfl (by norm_num)]
    rw [show (7 : ℚ) / 10 / 1 = 7 / 10 by norm_num, pyRound_seven_tenths]
    rfl
  · rw [classifyV1_white_some 3 rfl (by norm_num)]
    rw [show (3 : ℚ) / 1 = ((3 : ℤ) : ℚ) by norm_num, pyRound_intCast]
    rfl

/-- C2, amended.  For a calibrated session with unit duration f > 0:
variant 1 appends exactly round(d / f) SymbolGap characters for every
white interval regardless of the ratio (Python round-half-to-even,
clamped to zero from below), and in particular appends nothing whenever
d / f is at most one half; it never appends a WordGap.  Variant 2 appends
one SymbolGap iff 0.2 * f < d < 0.5 * f, one WordGap bar iff d > 0.5 * f,
and nothing when d is at most 0.2 * f. -/
theorem C2_amended (st : DecodeState) (f d : ℚ)
    (hf : st.first_signal_duration = some f) (h0 : 0 < f) :
    (classifyV1 st 6 d =
      .ok ⟨some f,
        st.decoded_message ++ List.replicate (pyRound (d / f)).toNat ' '⟩)
    ∧ (d / f ≤ 1 / 2 → classifyV1 st 6 d = .ok ⟨some f, st.decoded_message⟩)
    ∧ (0.2 * f < d → d < 0.5 * f →
        classifyV2 st 6 d = .ok ⟨some f, st.decoded_message ++ [' ']⟩)
    ∧ (0.5 * f < d → classifyV2 st 6 d = .ok ⟨some f, st.decoded_message ++ ['|']⟩)
    ∧ (d ≤ 0.2 * f → classifyV2 st 6 d = .ok ⟨some f, st.decoded_message⟩) := by
  refine ⟨classifyV1_white_some d hf h0.ne', ?_, ?_, ?_, ?_⟩
  · intro h
    rw [classifyV1_white_some d hf h0.ne']
    have h1 : (pyRound (d / f)).toNat = 0 := by
      rw [Int.toNat_eq_zero]
      exact pyRound_nonpos h
    rw [h1]
    simp
  · intro h1 h2
    have h3 : ¬ 0.5 * f < d := by linarith
    rw [classifyV2_white_some d hf]
    simp [h1, h2, h3]
  · intro h
    have h2 : ¬ d < 0.5 * f := by linarith
    rw [classifyV2_white_some d hf]
    simp [h, h2]
  · intro h
    have h1 : ¬ 0.2 * f < d := by linarith
    have h3 : ¬ 0.5 * f < d := by linarith
    rw [classifyV2_white_some d hf]
    simp [h1, h3]

theorem C2_amended_witness :
    classifyV1 ⟨some 1, ['.']⟩ 6 (2 / 5) = .ok ⟨some 1, ['.']⟩
    ∧ classifyV2 ⟨some 1, []⟩ 6 (3 / 10) = .ok ⟨some 1, [' ']⟩
    ∧ classifyV2 ⟨some 1, []⟩ 6 3 = .ok ⟨some 1, ['|']⟩ := by
  refine ⟨?_, ?_, ?_⟩
  · have h := (C2_amended ⟨some 1, ['.']⟩ 1 (2 / 5) rfl (by norm_num)).2.1 (by norm_num)
    simpa using h
  · have h :=
      (C2_amended ⟨some 1, []⟩ 1 (3 / 10) rfl (by norm_num)).2.2.1
        (by norm_num) (by norm_num)
    simpa using h
  · have h := (C2_amended ⟨some 1, []⟩ 1 3 rfl (by norm_num)).2.2.2.1 (by norm_num)
    simpa using h

/-- C3, counterexample.  The claim states the timing reference is set
from the duration of the very first decodable SignalMark interval.
Running the variant-1 decoder on a 2 s SignalGap followed by a 5 s
SignalMark (the first decodable SignalMark of the session) leaves the
reference at 2, the first white interval's duration, not at 5. -/
theorem C3_counterexample :
    runLoop classifyV1 ⟨none, []⟩ [(6, 2), (5, 5)] = .ok ⟨some 2, ['-']⟩
    ∧ (2 : ℚ) ≠ 5 := by
  refine ⟨?_, by norm_num⟩
  have h1 : classifyV1 ⟨none, []⟩ 6 2 = .ok ⟨some 2, []⟩ :=
    classifyV1_white_none 2 rfl
  have h2 : classifyV1 ⟨some 2, []⟩ 5 5 = .ok ⟨some 2, ['-']⟩ := by
    rw [classifyV1_red_some 5 rfl]
    norm_num
  have e1 : endsWithGaps7 [] = false := rfl
  have e2 : endsWithGaps7 ['-'] = false := rfl
  simp [runLoop, h1, h2, e1, e2]

/-- C3, amended.  In both variants the timing reference is set exactly
once, from the duration of the very first decodable SignalGap (white)
interval — not from a SignalMark — and once set it is never changed by
any later classify call that returns normally (a first SignalMark
instead raises TypeError, see C9). -/
theorem C3_amended :
    (∀ (st : DecodeState) (d : ℚ), st.first_signal_duration = none →
      classifyV1 st 6 d = .ok ⟨some d, st.decoded_message⟩
      ∧ classifyV2 st 6 d =
          .ok ⟨some d, st.decoded_message ++ (if 0 < d then ['|'] else [])⟩)
    ∧ (∀ (st st' : DecodeState) (c : ℕ) (d f : ℚ),
        st.first_signal_duration = some f → classifyV1 st c d = .ok st' →
        st'.first_signal_duration = some f)
    ∧ (∀ (st st' : DecodeState) (c : ℕ) (d f : ℚ),
        st.first_signal_duration = some f → classifyV2 st c d = .ok st' →
        st'.first_signal_duration = some f) := by
  refine ⟨fun st d h => ⟨classifyV1_white_none d h, classifyV2_white_none d h⟩,
    ?_, ?_⟩
  · intro st st' c d f hf hok
    rcases classifyV1_ok_first hok with h | ⟨_, hn, _⟩
    · rw [h, hf]
    · rw [hf] at hn
      simp at hn
  · intro st st' c d f hf hok
    rcases classifyV2_ok_first hok with h | ⟨_, hn, _⟩
    · rw [h, hf]
    · rw [hf] at hn
      simp at hn

theorem C3_amended_witness :
    classifyV1 ⟨none, []⟩ 6 2 = .ok ⟨some 2, []⟩
    ∧ (⟨some 2, ['-']⟩ : DecodeState).first_signal_duration = some 2 := by
  refine ⟨(C3_amended.1 ⟨none, []⟩ 2 rfl).1,
    C3_amended.2.1 ⟨some 2, []⟩ ⟨some 2, ['-']⟩ 5 5 2 rfl ?_⟩
  rw [classifyV1_red_some 5 rfl]
  norm_num

/-- C4: after a classification step the loop reports Terminate exactly
when the accumulated message's trailing run of SymbolGap characters has
reached 7 (the endswith test of both variants), and whenever that
happens the decoding loop stops immediately: no further interval of the
stream is processed. -/
theorem C4_termination :
    (∀ msg : List Char, outcomeOf msg = .terminate ↔ 7 ≤ trailingGaps msg)
    ∧ (∀ (cls : DecodeState → ℕ → ℚ → Except PyError DecodeState)
        (st st' : DecodeState) (c : ℕ) (d : ℚ) (rest : List (ℕ × ℚ)),
        cls st c d = .ok st' → outcomeOf st'.decoded_message = .terminate →
        runLoop cls st ((c, d) :: rest) = .ok st') := by
  have hiff : ∀ msg : List Char,
      outcomeOf msg = .terminate ↔ 7 ≤ trailingGaps msg := by
    intro msg
    unfold outcomeOf
    by_cases hb : endsWithGaps7 msg
    · rw [if_pos hb]
      simp [(endsWithGaps7_iff msg).mp hb]
    · rw [if_neg hb]
      constructor
      · intro h
        simp at h
      · intro hc
        exact absurd ((endsWithGaps7_iff msg).mpr hc) hb
  refine ⟨hiff, ?_⟩
  intro cls st st' c d rest hok hterm
  have hend : endsWithGaps7 st'.decoded_message = true := by
    by_contra hb
    unfold outcomeOf at hterm
    rw [if_neg hb] at hterm
    simp at hterm
  simp [runLoop, hok, hend]

theorem C4_termination_witness :
    (outcomeOf (List.replicate 7 ' ') = .terminate ↔
      7 ≤ trailingGaps (List.replicate 7 ' '))
    ∧ runLoop classifyV1 ⟨some 1, List.replicate 6 ' '⟩ [(6, 1), (5, 99)]
        = .ok ⟨some 1, List.replicate 7 ' '⟩ := by
  refine ⟨C4_termination.1 _,
    C4_termination.2 classifyV1 _ _ 6 1 [(5, 99)] ?_ rfl⟩
  rw [classifyV1_white_some 1 rfl (by norm_num)]
  rw [show (1 : ℚ) / 1 = ((1 : ℤ) : ℚ) by norm_num, pyRound_intCast]
  rfl

/-- C7, counterexample.  The claim states intervals of zero or negative
duration are rejected with an InvalidInterval error without touching the
state.  Neither variant performs any duration validation: a calibrated
SignalMark interval of duration -1 s is accepted normally and appends a
Dot to the message in both variants. -/
theorem C7_counterexample :
    classifyV1 ⟨some 1, []⟩ 5 (-1) = .ok ⟨some 1, ['.']⟩
    ∧ classifyV2 ⟨some 1, []⟩ 5 (-1) = .ok ⟨some 1, ['.']⟩
    ∧ (['.'] : List Char) ≠ [] := by
  refine ⟨?_, ?_, by simp⟩
  · rw [classifyV1_red_some (-1) rfl]
    norm_num
  · rw [classifyV2_red_some (-1) rfl]
    norm_num

/-- C7, amended.  The classify step has no validity check on durations:
for a calibrated session with positive unit duration, every SignalMark
interval of non-positive duration is silently classified as a Dot (its
duration is below every positive threshold) and the symbol stream is
mutated, in both variants; no error value is produced. -/
theorem C7_amended (st : DecodeState) (f d : ℚ)
    (hf : st.first_signal_duration = some f) (hd : d ≤ 0) (h0 : 0 < f) :
    classifyV1 st 5 d = .ok ⟨some f, st.decoded_message ++ ['.']⟩
    ∧ classifyV2 st 5 d = .ok ⟨some f, st.decoded_message ++ ['.']⟩ := by
  constructor
  · rw [classifyV1_red_some d hf]
    have h1 : d < f := by linarith
    simp [h1]
  · rw [classifyV2_red_some d hf]
    have h1 : d < 0.2 * f := by linarith
    have h2 : ¬ 0.5 * f < d := by linarith
    simp [h1, h2]

theorem C7_amended_witness :
    classifyV1 ⟨some 1, []⟩ 5 0 = .ok ⟨some 1, ['.']⟩
    ∧ classifyV2 ⟨some 1, []⟩ 5 0 = .ok ⟨some 1, ['.']⟩ := by
  have h := C7_amended ⟨some 1, []⟩ 1 0 rfl (by norm_num) (by norm_num)
  simpa using h

/-- C8: a closed interval whose color is neither SignalMark (5) nor
SignalGap (6) leaves the whole decoding state — in particular the
timing reference and the accumulated message — unchanged, in both
variants. -/
theorem C8_nondecoding_frame (st : DecodeState) (c : ℕ) (d : ℚ)
    (h5 : c ≠ 5) (h6 : c ≠ 6) :
    classifyV1 st c d = .ok st ∧ classifyV2 st c d = .ok st :=
  ⟨classifyV1_other d h5 h6, classifyV2_other d h5 h6⟩

theorem C8_nondecoding_frame_witness :
    classifyV1 ⟨some 1, ['.']⟩ 3 2 = .ok ⟨some 1, ['.']⟩
    ∧ classifyV2 ⟨some 1, ['.']⟩ 3 2 = .ok ⟨some 1, ['.']⟩ :=
  C8_nondecoding_frame ⟨some 1, ['.']⟩ 3 2 (by norm_num) (by norm_num)

/-- C9: when the timing reference is still unset, classifying a
SignalMark (red) interval raises TypeError in both variants (the source
compares the duration against 1 * None resp. 0.2 * None), and the error
is reachable at the interface because calibration only ever happens on a
SignalGap (white) interval: every non-white classify call that returns
normally leaves the reference unset. -/
theorem C9_uncalibrated_mark :
    (∀ (st : DecodeState) (d : ℚ), st.first_signal_duration = none →
      classifyV1 st 5 d = .error .typeError
      ∧ classifyV2 st 5 d = .error .typeError)
    ∧ (∀ (st st' : DecodeState) (c : ℕ) (d : ℚ),
        st.first_signal_duration = none → c ≠ 6 →
        classifyV1 st c d = .ok st' → st'.first_signal_duration = none)
    ∧ (∀ (st st' : DecodeState) (c : ℕ) (d : ℚ),
        st.first_signal_duration = none → c ≠ 6 →
        classifyV2 st c d = .ok st' → st'.first_signal_duration = none) := by
  refine ⟨fun st d h => ⟨classifyV1_red_none d h, classifyV2_red_none d h⟩, ?_, ?_⟩
  · intro st st' c d hn h6 hok
    rcases classifyV1_ok_first hok with h | ⟨hc, _, _⟩
    · rw [h, hn]
    · exact absurd hc h6
  · intro st st' c d hn h6 hok
    rcases classifyV2_ok_first hok with h | ⟨hc, _, _⟩
    · rw [h, hn]
    · exact absurd hc h6

theorem C9_uncalibrated_mark_witness :
    classifyV1 ⟨none, []⟩ 5 2 = .error .typeError
    ∧ classifyV2 ⟨none, []⟩ 5 2 = .error .typeError
    ∧ (⟨none, []⟩ : DecodeState).first_signal_duration = none := by
  refine ⟨(C9_uncalibrated_mark.1 ⟨none, []⟩ 2 rfl).1,
    (C9_uncalibrated_mark.1 ⟨none, []⟩ 2 rfl).2,
    C9_uncalibrated_mark.2.1 ⟨none, []⟩ ⟨none, []⟩ 3 2 rfl (by norm_num) ?_⟩
  exact classifyV1_other 2 (by norm_num) (by norm_num)

/-- C10: in variant 2 the word-gap test runs for red intervals as well:
every calibrated SignalMark interval whose duration exceeds half the
(nonnegative) unit duration appends both a Dash and the word-gap bar in
the same classification step. -/
theorem C10_mark_appends_wordgap (st : DecodeState) (f d : ℚ)
    (hf : st.first_signal_duration = some f) (h0 : 0 ≤ f)
    (hd : 0.5 * f < d) :
    classifyV2 st 5 d = .ok ⟨some f, st.decoded_message ++ ['-', '|']⟩ := by
  rw [classifyV2_red_some d hf]
  have h1 : ¬ d < 0.2 * f := by linarith
  have h2 : 0.2 * f < d := by linarith
  simp [h1, h2, hd]

theorem C10_mark_appends_wordgap_witness :
    classifyV2 ⟨some 1, []⟩ 5 1 = .ok ⟨some 1, ['-', '|']⟩ := by
  have h := C10_mark_appends_wordgap ⟨some 1, []⟩ 1 1 rfl (by norm_num) (by norm_num)
  simpa using h

/-! ### The translator refines the specification pipeline -/

lemma foldl_append_flatten {α : Type} (g : α → List Char) (l : List α)
    (x : List Char) :
    l.foldl (fun acc a => acc ++ g a) x = x ++ (l.map g).flatten := by
  induction l generalizing x with
  | nil => simp
  | cons a l ih => simp [ih, List.append_assoc]

lemma foldl_word_flatten (g : List Char → List Char) (l : List (List Char))
    (x : List Char) :
    l.foldl (fun acc w => acc ++ g w ++ [' ']) x
      = x ++ (l.map (fun w => g w ++ [' '])).flatten := by
  induction l generalizing x with
  | nil => simp
  | cons a l ih =>
    rw [List.foldl_cons, ih]
    simp [List.append_assoc]

lemma decodeWord_eq (w : List Char) :
    decodeWord w = ((pySplit [' '] w).map lookupCode).flatten := by
  unfold decodeWord
  have h := foldl_append_flatten lookupCode (pySplit [' '] w) []
  simpa using h

lemma flatten_append_space (f : List Char → List Char) :
    ∀ ws : List (List Char), ws ≠ [] →
      (ws.map (fun w => f w ++ [' '])).flatten = joinWords (ws.map f) ++ [' ']
  | [], h => absurd rfl h
  | [w], _ => by simp [joinWords]
  | w :: w' :: ws, _ => by
    have ih := flatten_append_space f (w' :: ws) (by simp)
    simp only [List.map_cons, List.flatten_cons] at ih ⊢
    rw [ih]
    simp [joinWords, List.append_assoc]

lemma stripList_append_space (x : List Char) :
    stripList (x ++ [' ']) = stripList x := by
  unfold stripList
  rw [List.reverse_append]
  have hws : ' '.isWhitespace = true := rfl
  simp [hws]

lemma pySplitGo_ne_nil (sep : List Char) :
    ∀ (n : ℕ) (s cur : List Char), pySplitGo sep n s cur ≠ [] := by
  intro n
  induction n with
  | zero =>
    intro s cur
    cases s <;> simp [pySplitGo]
  | succ n ih =>
    intro s cur
    cases s with
    | nil => simp [pySplitGo]
    | cons c rest =>
      rw [pySplitGo]
      split_ifs with h
      · simp
      · exact ih rest (c :: cur)

lemma pySplit_ne_nil (sep s : List Char) : pySplit sep s ≠ [] :=
  pySplitGo_ne_nil sep s.length s []

lemma translate_eq_spec (wordSep m : List Char) :
    stripList
      ((pySplit wordSep m).foldl (fun acc w => acc ++ decodeWord w ++ [' ']) [])
      = specTranslate wordSep m := by
  rw [foldl_word_flatten decodeWord (pySplit wordSep m) [], List.nil_append]
  rw [flatten_append_space decodeWord (pySplit wordSep m) (pySplit_ne_nil wordSep m)]
  rw [stripList_append_space]
  unfold specTranslate
  have hmap : (pySplit wordSep m).map decodeWord
      = (pySplit wordSep m).map (fun w => ((pySplit [' '] w).map lookupCode).flatten) :=
    List.map_congr_left (fun w _ => decodeWord_eq w)
  rw [hmap]

/-- C5: both translate_to_text variants implement exactly the pipeline
described by the specification: split the symbol stream into words at the
word-separator encoding (three consecutive SymbolGaps in variant 1, the
word-gap bar in variant 2), split each word into letter codes at
SymbolGap boundaries, map each code through the table with unknown codes
yielding the empty string, concatenate the letters of each word, join the
words with a single space, and trim surrounding whitespace; in particular
the codes .- , --. and ... translate to A, G and S in both variants. -/
theorem C5_translate_refines :
    (∀ m : List Char, translateV1 m = specTranslate [' ', ' ', ' '] m)
    ∧ (∀ m : List Char, translateV2 m = specTranslate ['|'] m)
    ∧ translateV1 ['.', '-'] = ['A']
    ∧ translateV1 ['-', '-', '.'] = ['G']
    ∧ translateV1 ['.', '.', '.'] = ['S']
    ∧ translateV2 ['.', '-'] = ['A']
    ∧ translateV2 ['-', '-', '.'] = ['G']
    ∧ translateV2 ['.', '.', '.'] = ['S'] :=
  ⟨fun m => translate_eq_spec [' ', ' ', ' '] m,
   fun m => translate_eq_spec ['|'] m, rfl, rfl, rfl, rfl, rfl, rfl⟩

/-! ### Segmenter properties -/

lemma runRepsGo_ne_nil (c : ℕ) (cs : List ℕ) : runRepsGo c cs ≠ [] := by
  induction cs generalizing c with
  | nil => simp [runRepsGo]
  | cons d ds ih =>
    rw [runRepsGo]
    split_ifs with h
    · exact ih c
    · simp

lemma dropLast_cons_ne {a : ℕ} {l : List ℕ} (h : l ≠ []) :
    (a :: l).dropLast = a :: l.dropLast := by
  cases l with
  | nil => exact absurd rfl h
  | cons b bs => rfl

lemma segRun_sum (ss : List (ℕ × ℚ)) : ∀ st : SegState,
    ((segRun st ss).2.map Prod.snd).sum = (segRun st ss).1.start - st.start := by
  induction ss with
  | nil =>
    intro st
    simp [segRun]
  | cons s ss ih =>
    intro st
    cases hl : st.last with
    | none =>
      have hstep : segStep st s = (⟨some (aliasColor s.1), st.start⟩, none) := by
        simp [segStep, hl]
      simp only [segRun, hstep]
      simpa using ih ⟨some (aliasColor s.1), st.start⟩
    | some lc =>
      by_cases hc : aliasColor s.1 = lc
      · have hstep : segStep st s = (st, none) := by
          simp [segStep, hl, hc]
        simp only [segRun, hstep]
        simpa using ih st
      · by_cases hdec : lc = 5 ∨ lc = 6
        · have hstep : segStep st s
              = (⟨some (aliasColor s.1), s.2⟩, some (lc, s.2 - st.start)) := by
            simp [segStep, hl, hc, hdec]
          simp only [segRun, hstep]
          have h2 := ih ⟨some (aliasColor s.1), s.2⟩
          simp only [List.map_cons, List.sum_cons, Option.toList_some,
            List.cons_append, List.nil_append] at h2 ⊢
          rw [h2]
          ring
        · have hstep : segStep st s = (⟨some (aliasColor s.1), st.start⟩, none) := by
            simp [segStep, hl, hc, hdec]
          simp only [segRun, hstep]
          simpa using ih ⟨some (aliasColor s.1), st.start⟩

lemma segRun_colors (ss : List (ℕ × ℚ)) : ∀ (lc : ℕ) (t : ℚ),
    (lc = 5 ∨ lc = 6) →
    (∀ s ∈ ss, aliasColor s.1 = 5 ∨ aliasColor s.1 = 6) →
    ((segRun ⟨some lc, t⟩ ss).2.map Prod.fst)
      = (runRepsGo lc (ss.map fun s => aliasColor s.1)).dropLast := by
  induction ss with
  | nil =>
    intro lc t _ _
    simp [segRun, runRepsGo]
  | cons s ss ih =>
    intro lc t hlc hdec
    by_cases hc : aliasColor s.1 = lc
    · have hstep : segStep ⟨some lc, t⟩ s = (⟨some lc, t⟩, none) := by
        simp [segStep, hc]
      simp only [segRun, hstep, List.map_cons]
      rw [runRepsGo, if_pos hc]
      simpa using ih lc t hlc (fun x hx => hdec x (List.mem_cons_of_mem s hx))
    · have hstep : segStep ⟨some lc, t⟩ s
          = (⟨some (aliasColor s.1), s.2⟩, some (lc, s.2 - t)) := by
        simp [segStep, hc, hlc]
      simp only [segRun, hstep, List.map_cons]
      rw [runRepsGo, if_neg hc]
      have hc' := hdec s (List.mem_cons_self s ss)
      have ihh := ih (aliasColor s.1) s.2 hc'
        (fun x hx => hdec x (List.mem_cons_of_mem s hx))
      rw [dropLast_cons_ne (runRepsGo_ne_nil _ _)]
      simpa using ihh

/-- C6, counterexample.  On the sample stream
(green at 0 s, red at 2 s, white at 3 s, white at 9 s) with the session
timer starting at 0, the claim predicts one interval per closed maximal
run — two intervals, (green, 2 s) and (red, 1 s) — with total duration
equal to last timestamp minus first timestamp, 9 s.  The code emits a
single interval (red, 3 s): the green run is never emitted because only
red/white runs are, and its duration leaks into the red interval because
the timer is only reset after decodable runs. -/
theorem C6_counterexample :
    (segRun ⟨none, 0⟩ [(3, 0), (5, 2), (6, 3), (6, 9)]).2 = [(5, 3)]
    ∧ (runReps ([(3, 0), (5, 2), (6, 3), (6, 9)].map
        (fun s => aliasColor s.1))).length - 1 = 2
    ∧ ¬ (segRun ⟨none, 0⟩ [(3, 0), (5, 2), (6, 3), (6, 9)]).2.length = 2
    ∧ ¬ ((segRun ⟨none, 0⟩ [(3, 0), (5, 2), (6, 3), (6, 9)]).2.map Prod.snd).sum
          = 9 - 0 := by
  have h : (segRun ⟨none, 0⟩ [(3, 0), (5, 2), (6, 3), (6, 9)]).2 = [(5, 3)] := by
    norm_num [segRun, segStep, aliasColor]
  refine ⟨h, by norm_num [runReps, runRepsGo, aliasColor], ?_, ?_⟩
  · rw [h]
    norm_num
  · rw [h]
    norm_num

/-- C6, amended.  Emission is restricted to decodable runs: when every
sample's aliased color is SignalMark (5) or SignalGap (6), the segmenter
emits exactly one interval per maximal run of identical consecutive
colors excluding the final open run (in order, with the run's color),
and the sum of all emitted durations always equals the final value of
signal_start_time (the time of the last emission) minus its initial
value — not the last sample timestamp minus the first. -/
theorem C6_amended (init : SegState) (ss : List (ℕ × ℚ))
    (h0 : init.last = none)
    (hdec : ∀ s ∈ ss, aliasColor s.1 = 5 ∨ aliasColor s.1 = 6) :
    ((segRun init ss).2.map Prod.fst)
      = (runReps (ss.map fun s => aliasColor s.1)).dropLast
    ∧ ((segRun init ss).2.map Prod.snd).sum
      = (segRun init ss).1.start - init.start := by
  refine ⟨?_, segRun_sum ss init⟩
  cases ss with
  | nil => simp [segRun, runReps]
  | cons s ss =>
    have hstep : segStep init s = (⟨some (aliasColor s.1), init.start⟩, none) := by
      simp [segStep, h0]
    simp only [segRun, hstep, List.map_cons, runReps]
    have hc := hdec s (List.mem_cons_self s ss)
    simpa using segRun_colors ss (aliasColor s.1) init.start hc
      (fun x hx => hdec x (List.mem_cons_of_mem s hx))

theorem C6_amended_witness :
    ((segRun ⟨none, 0⟩ [(5, 0), (6, 1), (6, 2), (5, 4)]).2.map Prod.fst)
      = (runReps ([(5, 0), (6, 1), (6, 2), (5, 4)].map
          (fun s => aliasColor s.1))).dropLast
    ∧ ((segRun ⟨none, 0⟩ [(5, 0), (6, 1), (6, 2), (5, 4)]).2.map Prod.snd).sum
      = (segRun ⟨none, 0⟩ [(5, 0), (6, 1), (6, 2), (5, 4)]).1.start
        - (⟨none, 0⟩ : SegState).start :=
  C6_amended ⟨none, 0⟩ [(5, 0), (6, 1), (6, 2), (5, 4)] rfl
    (by norm_num [aliasColor])

end MorseRobot

